import Mathlib

/-!
Shallow embedding of the split-screen terminal multiplexer from the Go
source (`splitScreen` / `panel` types and their methods), together with
the stream-reader loop and the metrics cost formula.

Text is modelled at the rune level as `List Char` (Go's
`for _, ch := range text` iterates runes).  Terminal output emitted by
the writer is captured as a trace of positioned write instructions.
-/

namespace Challenge

/-- A positioned terminal write instruction, as emitted by
`writeInto`/`commitLine` into the `out` builder:
`putc` is the single-character write `\033[row;colH%c`,
`puts` is the string write `\033[row;colH%s` (blank rows and redrawn
lines during a scroll). -/
inductive Instr where
  | putc (row col : Nat) (ch : Char)
  | puts (row col : Nat) (s : List Char)
deriving DecidableEq, Repr

/-- The Go `panel` struct: geometry (`r0,c0` top-left, `w,h` content
size), draw cursor (`cr,cc`), committed lines, in-progress line
(`curLine`, a `strings.Builder`), and the full raw buffer `buf`. -/
structure panel where
  title : String
  color : String
  r0 : Nat
  c0 : Nat
  w : Nat
  h : Nat
  cr : Nat
  cc : Nat
  lines : List (List Char)
  curLine : List Char
  buf : List Char
deriving DecidableEq, Repr

/-- `splitScreen.commitLine`: move `curLine` into `lines`; if the panel
is not yet full advance the cursor row, otherwise scroll: blank the
content area, redraw the last `h-1` committed lines (each truncated to
the panel width), and park the cursor on the last row. -/
def commitLine (p : panel) : panel × List Instr :=
  let lines := p.lines ++ [p.curLine]
  if lines.length < p.h then
    ({ p with lines := lines, curLine := [], cr := p.cr + 1, cc := 0 }, [])
  else
    let blanks := (List.range p.h).map
      (fun r => Instr.puts (p.r0 + r) p.c0 (List.replicate p.w ' '))
    let start := lines.length - (p.h - 1)
    let redraw := (lines.drop start).enum.map
      (fun il => Instr.puts (p.r0 + il.1) p.c0
        (if il.2.length > p.w then il.2.take p.w else il.2))
    ({ p with lines := lines, curLine := [], cr := p.h - 1, cc := 0 },
     blanks ++ redraw)

/-- One iteration of the character loop in `splitScreen.writeInto`:
`\r` is skipped, `\n` commits the in-progress line, any other rune is
appended to `curLine`, written at the cursor position, and the column
advanced — committing (wrap) when the column reaches the panel width. -/
def writeStep (p : panel) (ch : Char) : panel × List Instr :=
  if ch = '\r' then (p, [])
  else if ch = '\n' then commitLine p
  else
    let p1 : panel := { p with curLine := p.curLine ++ [ch] }
    let t : List Instr := [Instr.putc (p1.r0 + p1.cr) (p1.c0 + p1.cc) ch]
    let p2 : panel := { p1 with cc := p1.cc + 1 }
    if p2.cc ≥ p2.w then
      let q := commitLine p2
      (q.1, t ++ q.2)
    else (p2, t)

/-- The character loop of `splitScreen.writeInto` (everything after the
initial `p.buf.WriteString(text)`). -/
def writeChars : panel → List Char → panel × List Instr
  | p, [] => (p, [])
  | p, c :: cs =>
    let q := writeStep p c
    let r := writeChars q.1 cs
    (r.1, q.2 ++ r.2)

/-- `splitScreen.writeInto`: append the whole fragment to the raw
buffer, then run the character loop. -/
def writeInto (p : panel) (text : List Char) : panel × List Instr :=
  writeChars { p with buf := p.buf ++ text } text

/-- A freshly constructed panel as built in `newSplitScreen` /
`newTempScreen` / `newModelScreen`: zero cursor, no committed lines,
empty builders. -/
def initPanel (title color : String) (r0 c0 w h : Nat) : panel :=
  { title := title, color := color, r0 := r0, c0 := c0, w := w, h := h,
    cr := 0, cc := 0, lines := [], curLine := [], buf := [] }

/-- Apply a sequence of `write` calls (state component only; each
`splitScreen.write` call is `writeInto` on a fresh `out` builder). -/
def applyWrites : panel → List (List Char) → panel
  | p, [] => p
  | p, t :: ts => applyWrites (writeInto p t).1 ts

/-- The reset performed on each panel inside `splitScreen.redraw` (and
`redrawTemp`/`redrawModel`): cursor to the origin, committed lines,
in-progress line and raw buffer emptied. -/
def resetPanel (p : panel) : panel :=
  { p with cr := 0, cc := 0, lines := [], curLine := [], buf := [] }

/-- The per-panel body of `splitScreen.redraw`: capture the raw buffer,
reset the panel, and write the captured content back as one fragment. -/
def replayPanel (p : panel) : panel :=
  (writeInto (resetPanel p) p.buf).1

/-- The fields of a panel that no write operation touches: identity and
geometry. -/
def geom (p : panel) : String × String × Nat × Nat × Nat × Nat :=
  (p.title, p.color, p.r0, p.c0, p.w, p.h)

/-- `termSize`: the terminal-reported width and height with the floor
bounds applied (`w < 80 → 80`, `h < 24 → 24`).  The raw ioctl readings
are taken as parameters; a non-terminal environment reports zeros. -/
def termSize (reportedW reportedH : Nat) : Nat × Nat :=
  let w := if reportedW < 80 then 80 else reportedW
  let h := if reportedH < 24 then 24 else reportedH
  (w, h)

/-- The Go `splitScreen` struct (the mutex is not data and is omitted;
the fixed-size `[4]*panel` array is modelled as the list of panels). -/
structure splitScreen where
  panels : List panel
  panelCount : Nat
  termW : Nat
  half : Nat
  panelH : Nat
  midRow : Nat
  questR : Nat
  sepR : Nat
  statusR : Nat
  question : String
  doneCount : Nat
deriving DecidableEq, Repr

/-- `newSplitScreen`: the 4-panel (2×2) layout.  `panelH = (h-7)/2`
floored at 3; the four content panels are placed as in the source. -/
def newSplitScreen (reportedW reportedH : Nat) (question : String) :
    splitScreen :=
  let w := (termSize reportedW reportedH).1
  let h := (termSize reportedW reportedH).2
  let half := w / 2
  let panelH0 := (h - 7) / 2
  let panelH := if panelH0 < 3 then 3 else panelH0
  let midRow := panelH + 2
  { panels := [
      initPanel "1. Direct" "\x1b[94m" 2 2 (half - 1) panelH,
      initPanel "2. Step-by-step" "\x1b[92m" 2 (half + 2) (w - half - 2)
        panelH,
      initPanel "3. Meta-prompting" "\x1b[93m" (midRow + 1) 2 (half - 1)
        panelH,
      initPanel "4. Expert panel" "\x1b[95m" (midRow + 1) (half + 2)
        (w - half - 2) panelH ],
    panelCount := 4, termW := w, half := half, panelH := panelH,
    midRow := midRow, questR := 2 * panelH + 4, sepR := 2 * panelH + 6,
    statusR := 2 * panelH + 7, question := question, doneCount := 0 }

/-- The Go `metrics` struct.  Go's `float64` rates and the cost
computation are modelled over `ℚ`; `duration` is nanoseconds. -/
structure metrics where
  model : String
  provider : String
  duration : Int
  inputTokens : Int
  outputTokens : Int
  costIn : ℚ
  costOut : ℚ

/-- `metrics.totalCost`:
`float64(inputTokens)*costIn/1e6 + float64(outputTokens)*costOut/1e6`. -/
def metrics.totalCost (m : metrics) : ℚ :=
  (m.inputTokens : ℚ) * m.costIn / 1000000 +
    (m.outputTokens : ℚ) * m.costOut / 1000000

/-- The fields of the SSE event struct decoded in `readStreamToPanel`
(`type`, `delta.type`, `delta.text`). -/
structure streamEvent where
  type : String
  deltaType : String
  deltaText : String

/-- The scanner loop of `readStreamToPanel`, without cancellation (the
uncancelled path: `ctx.Err() == nil` throughout).  `decode` stands for
`json.Unmarshal` into the event struct (`none` = parse error).  State is
the target panel plus the accumulated `full` text; lines lacking the
`"data: "` marker and unparseable payloads are skipped, `"[DONE]"`
stops the loop, and text deltas are written to the panel and appended
to `full`. -/
def readLines (decode : String → Option streamEvent) :
    List String → panel × String → panel × String
  | [], st => st
  | line :: rest, st =>
    if "data: ".data.isPrefixOf line.data then
      if line.drop 6 = "[DONE]" then st
      else
        match decode (line.drop 6) with
        | none => readLines decode rest st
        | some ev =>
          if ev.type = "content_block_delta" ∧ ev.deltaType = "text_delta"
          then
            readLines decode rest
              ((writeInto st.1 ev.deltaText.data).1, st.2 ++ ev.deltaText)
          else readLines decode rest st
    else readLines decode rest st

/-- A decoder that rejects every payload (every line is a parse
error). -/
def decodeNone : String → Option streamEvent := fun _ => none

/-- Invariant of the wrap algorithm: the in-progress line is exactly as
long as the column cursor, the column cursor is inside the panel, and
every committed line fits the panel width. -/
def wrapInv (p : panel) : Prop :=
  p.curLine.length = p.cc ∧ p.cc < p.w ∧ ∀ l ∈ p.lines, l.length ≤ p.w

instance (p : panel) : Decidable (wrapInv p) :=
  inferInstanceAs (Decidable (_ ∧ _ ∧ _))

/-- A single-character write (`putc`) targets a column inside
`[c0, c0 + w)`; string writes are not constrained by the claim. -/
def charInRange (c0 w : Nat) : Instr → Prop
  | Instr.putc _ col _ => c0 ≤ col ∧ col < c0 + w
  | Instr.puts _ _ _ => True

instance (c0 w : Nat) (i : Instr) : Decidable (charInRange c0 w i) :=
  match i with
  | Instr.putc _ col _ =>
    inferInstanceAs (Decidable (c0 ≤ col ∧ col < c0 + w))
  | Instr.puts _ _ _ => inferInstanceAs (Decidable True)

/-- Twenty newline-terminated plain-text lines. -/
def text20 : List Char :=
  ("line1\nline2\nline3\nline4\nline5\nline6\nline7\nline8\nline9\n" ++
   "line10\nline11\nline12\nline13\nline14\nline15\nline16\nline17\n" ++
   "line18\nline19\nline20\n").data

/-- The first panel of the 4-panel layout at terminal size 120×40
(origin (2,2), width 59, height 16) after writing all of `text20`. -/
def p20 : panel := (writeInto (initPanel "1. Direct" "\x1b[94m" 2 2 59 16)
  text20).1

/-- The same panel just before the final newline of `text20`: the state
on which the 20th commit (a scroll event) runs. -/
def q20 : panel := (writeInto (initPanel "1. Direct" "\x1b[94m" 2 2 59 16)
  text20.dropLast).1

theorem commitLine_geom (p : panel) : geom (commitLine p).1 = geom p := by
  simp only [commitLine]
  split <;> rfl

theorem writeStep_geom (p : panel) (c : Char) :
    geom (writeStep p c).1 = geom p := by
  simp only [writeStep]
  split
  · rfl
  · split
    · exact commitLine_geom p
    · split
      · exact commitLine_geom _
      · rfl

theorem writeChars_geom (cs : List Char) (p : panel) :
    geom (writeChars p cs).1 = geom p := by
  induction cs generalizing p with
  | nil => rfl
  | cons c cs ih =>
    simp only [writeChars]
    exact (ih _).trans (writeStep_geom p c)

theorem commitLine_buf (p : panel) : (commitLine p).1.buf = p.buf := by
  simp only [commitLine]
  split <;> rfl

theorem writeStep_buf (p : panel) (c : Char) :
    (writeStep p c).1.buf = p.buf := by
  simp only [writeStep]
  split
  · rfl
  · split
    · exact commitLine_buf p
    · split
      · exact commitLine_buf _
      · rfl

theorem writeChars_buf (cs : List Char) (p : panel) :
    (writeChars p cs).1.buf = p.buf := by
  induction cs generalizing p with
  | nil => rfl
  | cons c cs ih =>
    simp only [writeChars]
    exact (ih _).trans (writeStep_buf p c)

theorem writeInto_buf (p : panel) (t : List Char) :
    (writeInto p t).1.buf = p.buf ++ t := by
  simp only [writeInto]
  exact writeChars_buf t _

theorem commitLine_setBuf (p : panel) (b : List Char) :
    commitLine { p with buf := b } =
      ({ (commitLine p).1 with buf := b }, (commitLine p).2) := by
  simp only [commitLine]
  split <;> rfl

theorem writeStep_setBuf (p : panel) (c : Char) (b : List Char) :
    writeStep { p with buf := b } c =
      ({ (writeStep p c).1 with buf := b }, (writeStep p c).2) := by
  simp only [writeStep]
  split
  · rfl
  · split
    · exact commitLine_setBuf p b
    · split
      · rw [commitLine_setBuf
          { p with curLine := p.curLine ++ [c], cc := p.cc + 1 } b]
      · rfl

theorem writeChars_setBuf (cs : List Char) (p : panel) (b : List Char) :
    writeChars { p with buf := b } cs =
      ({ (writeChars p cs).1 with buf := b }, (writeChars p cs).2) := by
  induction cs generalizing p b with
  | nil => rfl
  | cons c cs ih =>
    simp only [writeChars]
    rw [writeStep_setBuf, ih]

theorem writeChars_append (a b : List Char) (p : panel) :
    writeChars p (a ++ b) =
      ((writeChars (writeChars p a).1 b).1,
       (writeChars p a).2 ++ (writeChars (writeChars p a).1 b).2) := by
  induction a generalizing p with
  | nil => rfl
  | cons c cs ih =>
    simp only [List.cons_append, writeChars, List.append_eq]
    rw [ih]
    simp [List.append_assoc]

theorem writeInto_append (p : panel) (a b : List Char) :
    (writeInto (writeInto p a).1 b).1 = (writeInto p (a ++ b)).1 := by
  simp only [writeInto, writeChars_setBuf, writeChars_append,
    writeChars_buf, List.append_assoc]

theorem writeInto_geom (p : panel) (t : List Char) :
    geom (writeInto p t).1 = geom p :=
  writeChars_geom t _

theorem w_of_geom {p q : panel} (h : geom p = geom q) : p.w = q.w := by
  simpa [geom] using congrArg (fun g => g.2.2.2.2.1) h

theorem h_of_geom {p q : panel} (h : geom p = geom q) : p.h = q.h := by
  simpa [geom] using congrArg (fun g => g.2.2.2.2.2) h

theorem c0_of_geom {p q : panel} (h : geom p = geom q) : p.c0 = q.c0 := by
  simpa [geom] using congrArg (fun g => g.2.2.2.1) h

theorem resetPanel_eq_of_geom {p q : panel} (h : geom p = geom q) :
    resetPanel p = resetPanel q := by
  simp only [geom, Prod.mk.injEq] at h
  obtain ⟨h1, h2, h3, h4, h5, h6⟩ := h
  simp [resetPanel, h1, h2, h3, h4, h5, h6]

theorem applyWrites_eq_writeInto (ts : List (List Char)) (p : panel) :
    applyWrites p ts = (writeInto p ts.flatten).1 := by
  induction ts generalizing p with
  | nil =>
    simp only [applyWrites, List.flatten_nil, writeInto, List.append_nil,
      writeChars]
  | cons t ts ih =>
    simp only [applyWrites, List.flatten_cons, ih, writeInto_append]

theorem writeChars_cr (t : List Char) (p : panel)
    (h : ∀ c ∈ t, c = '\r') : writeChars p t = (p, []) := by
  induction t generalizing p with
  | nil => rfl
  | cons c cs ih =>
    have hc : c = '\r' := h c (List.mem_cons_self c cs)
    have hrest : ∀ c ∈ cs, c = '\r' := fun x hx => h x (List.mem_cons_of_mem c hx)
    simp only [writeChars, hc, writeStep, if_pos rfl, if_true,
      ih _ hrest, List.append_nil]

theorem writeChars_plain (cs : List Char) (p : panel)
    (hplain : ∀ c ∈ cs, ¬c = '\r' ∧ ¬c = '\n')
    (hfit : p.cc + cs.length < p.w) :
    (writeChars p cs).1 =
      { p with curLine := p.curLine ++ cs, cc := p.cc + cs.length } := by
  induction cs generalizing p with
  | nil => simp [writeChars]
  | cons c cs ih =>
    have hc := hplain c (List.mem_cons_self c cs)
    have hrest : ∀ x ∈ cs, ¬x = '\r' ∧ ¬x = '\n' :=
      fun x hx => hplain x (List.mem_cons_of_mem c hx)
    simp only [writeChars, writeStep, if_neg hc.1, if_neg hc.2]
    rw [if_neg (by simp at hfit ⊢; omega : ¬p.cc + 1 ≥ p.w)]
    rw [ih _ hrest (by simp at hfit ⊢; omega)]
    simp [List.append_assoc]
    omega

theorem writeStep_w (p : panel) (c : Char) : (writeStep p c).1.w = p.w :=
  w_of_geom (writeStep_geom p c)

theorem writeStep_c0 (p : panel) (c : Char) :
    (writeStep p c).1.c0 = p.c0 :=
  c0_of_geom (writeStep_geom p c)

theorem writeStep_h (p : panel) (c : Char) : (writeStep p c).1.h = p.h :=
  h_of_geom (writeStep_geom p c)

theorem commitLine_rowInv (p : panel) (hh : 1 ≤ p.h)
    (hinv : p.cr ≤ p.lines.length) :
    (commitLine p).1.cr ≤ (commitLine p).1.lines.length ∧
      (commitLine p).1.cr < p.h := by
  simp only [commitLine]
  split
  · next hlt => simp only [List.length_append, List.length_cons] at *; omega
  · next hge => simp only [List.length_append, List.length_cons] at *; omega

theorem writeStep_rowInv (p : panel) (c : Char) (hh : 1 ≤ p.h)
    (hinv : p.cr ≤ p.lines.length ∧ p.cr < p.h) :
    (writeStep p c).1.cr ≤ (writeStep p c).1.lines.length ∧
      (writeStep p c).1.cr < p.h := by
  simp only [writeStep]
  split
  · exact hinv
  · split
    · exact commitLine_rowInv p hh hinv.1
    · split
      · exact commitLine_rowInv _ hh hinv.1
      · exact hinv

theorem writeChars_rowInv (cs : List Char) (p : panel) (hh : 1 ≤ p.h)
    (hinv : p.cr ≤ p.lines.length ∧ p.cr < p.h) :
    (writeChars p cs).1.cr ≤ (writeChars p cs).1.lines.length ∧
      (writeChars p cs).1.cr < p.h := by
  induction cs generalizing p with
  | nil => exact hinv
  | cons c cs ih =>
    have hstep := writeStep_rowInv p c hh hinv
    have hh' : 1 ≤ (writeStep p c).1.h := by rw [writeStep_h]; exact hh
    have := ih (writeStep p c).1 hh' ⟨hstep.1, by rw [writeStep_h]; exact hstep.2⟩
    simpa only [writeChars, writeStep_h] using this

theorem commitLine_trace_puts (p : panel) (c0 w : Nat) :
    ∀ i ∈ (commitLine p).2, charInRange c0 w i := by
  simp only [commitLine]
  split
  · simp
  · intro i hi
    simp only [List.mem_append, List.mem_map] at hi
    rcases hi with ⟨r, _, rfl⟩ | ⟨il, _, rfl⟩ <;> trivial

theorem commitLine_wrapInv (p : panel) (hw : 1 ≤ p.w)
    (hcur : p.curLine.length ≤ p.w)
    (hlines : ∀ l ∈ p.lines, l.length ≤ p.w) :
    wrapInv (commitLine p).1 := by
  simp only [commitLine, wrapInv]
  split <;> refine ⟨rfl, hw, fun l hl => ?_⟩ <;>
    rcases List.mem_append.mp hl with h | h
  · exact hlines l h
  · simp only [List.mem_singleton] at h; subst h; exact hcur
  · exact hlines l h
  · simp only [List.mem_singleton] at h; subst h; exact hcur

theorem commitLine_w (p : panel) : (commitLine p).1.w = p.w :=
  w_of_geom (commitLine_geom p)

theorem writeStep_wrapInv (p : panel) (c : Char) (hw : 1 ≤ p.w)
    (hinv : wrapInv p) :
    wrapInv (writeStep p c).1 ∧
      ∀ i ∈ (writeStep p c).2, charInRange p.c0 p.w i := by
  obtain ⟨hlen, hcc, hlines⟩ := hinv
  simp only [writeStep]
  split
  · exact ⟨⟨hlen, hcc, hlines⟩, by simp⟩
  · split
    · exact ⟨commitLine_wrapInv p hw (by omega) hlines,
        commitLine_trace_puts p p.c0 p.w⟩
    · split
      · next hwrap =>
        refine ⟨commitLine_wrapInv _ hw (by simp; omega) hlines, ?_⟩
        intro i hi
        rcases List.mem_append.mp hi with h | h
        · simp only [List.mem_singleton] at h
          subst h
          exact ⟨Nat.le_add_right _ _, by omega⟩
        · exact commitLine_trace_puts _ p.c0 p.w i h
      · next hnowrap =>
        refine ⟨⟨by simp [hlen], by simp at hnowrap ⊢; omega, hlines⟩, ?_⟩
        intro i hi
        simp only [List.mem_singleton] at hi
        subst hi
        exact ⟨Nat.le_add_right _ _, by omega⟩

theorem writeChars_wrapInv (cs : List Char) (p : panel) (hw : 1 ≤ p.w)
    (hinv : wrapInv p) :
    wrapInv (writeChars p cs).1 ∧
      ∀ i ∈ (writeChars p cs).2, charInRange p.c0 p.w i := by
  induction cs generalizing p with
  | nil => exact ⟨hinv, by simp [writeChars]⟩
  | cons c cs ih =>
    obtain ⟨h1, h2⟩ := writeStep_wrapInv p c hw hinv
    have hw' : 1 ≤ (writeStep p c).1.w := by rw [writeStep_w]; exact hw
    obtain ⟨h3, h4⟩ := ih (writeStep p c).1 hw' h1
    refine ⟨h3, fun i hi => ?_⟩
    simp only [writeChars, List.mem_append] at hi ⊢
    rcases hi with h | h
    · exact h2 i h
    · have := h4 i h
      rwa [writeStep_c0, writeStep_w] at this

theorem commitLine_fast (p : panel)
    (hfast : p.lines.length + 1 < p.h) :
    commitLine p =
      ({ p with
          lines := p.lines ++ [p.curLine], curLine := [],
          cr := p.cr + 1, cc := 0 }, []) := by
  simp only [commitLine]
  rw [if_pos (by
    simp only [List.length_append, List.length_cons, List.length_nil]
    omega)]

theorem writeStep_newline (p : panel) : writeStep p '\n' = commitLine p := by
  simp [writeStep]

theorem writeInto_plain (cs : List Char) (p : panel)
    (hplain : ∀ c ∈ cs, ¬c = '\r' ∧ ¬c = '\n')
    (hfit : p.cc + cs.length < p.w) :
    (writeInto p cs).1 =
      { p with
          curLine := p.curLine ++ cs, cc := p.cc + cs.length,
          buf := p.buf ++ cs } := by
  rw [writeInto,
    writeChars_plain cs { p with buf := p.buf ++ cs } hplain hfit]

theorem writeInto_newline_fast (p : panel)
    (hfast : p.lines.length + 1 < p.h) :
    (writeInto p ['\n']).1 =
      { p with
          lines := p.lines ++ [p.curLine], curLine := [],
          cr := p.cr + 1, cc := 0, buf := p.buf ++ ['\n'] } := by
  rw [writeInto]
  simp only [writeChars, writeStep_newline]
  rw [commitLine_fast { p with buf := p.buf ++ ['\n'] } hfast]

/-- C1: Replay round-trip — for every panel whose state was produced by
a sequence of `write` calls from the freshly constructed panel, the
redraw/replay step (capture the raw buffer, reset cursor / committed
lines / in-progress line / raw buffer, write the captured buffer back
as one fragment) yields exactly the panel state before the replay. -/
theorem replay_roundtrip (title color : String) (r0 c0 w h : Nat)
    (ts : List (List Char)) :
    replayPanel (applyWrites (initPanel title color r0 c0 w h) ts) =
      applyWrites (initPanel title color r0 c0 w h) ts := by
  rw [applyWrites_eq_writeInto, replayPanel, writeInto_buf,
    resetPanel_eq_of_geom
      (writeInto_geom (initPanel title color r0 c0 w h) ts.flatten)]
  rfl

/-- C2: Wrap invariant — writing any fragment to a panel of positive
width preserves the wrap invariant (in particular every committed line
has length ≤ `w` in runes), and every positioned single-character write
the writer emits targets a column in `[c0, c0 + w)`. -/
theorem wrap_invariant (p : panel) (t : List Char) (hw : 1 ≤ p.w)
    (hinv : wrapInv p) :
    wrapInv (writeInto p t).1 ∧
      ∀ i ∈ (writeInto p t).2, charInRange p.c0 p.w i := by
  have := writeChars_wrapInv t { p with buf := p.buf ++ t } hw hinv
  simpa [writeInto] using this

set_option maxRecDepth 100000 in
/-- C3: Scroll invariant — whenever a commit happens with the
committed-lines count already at or beyond `h - 1` (in particular once
it is ≥ `h`), the commit is a scroll event: its emitted instructions
blank all `h` content rows and then redraw exactly the last `h - 1`
committed lines top-aligned, each truncated to the panel width, the
final row stays blank, and the cursor ends at row `h - 1`, column 0.
Concretely (final conjuncts), after writing 20 newline-terminated lines
into a width-59, height-16 panel the visible window (the last 15
committed lines) is lines 6–20, the cursor sits at row 15, column 0,
and lines 1–5 survive only in the raw buffer. -/
theorem scroll_event_spec (p : panel) (hh : 1 ≤ p.h)
    (hfull : p.h ≤ p.lines.length + 1) :
    ((commitLine p).1 =
      { p with
          lines := p.lines ++ [p.curLine], curLine := [],
          cr := p.h - 1, cc := 0 } ∧
     (commitLine p).2 =
      (List.range p.h).map
        (fun r => Instr.puts (p.r0 + r) p.c0 (List.replicate p.w ' ')) ++
      ((p.lines ++ [p.curLine]).drop
          ((p.lines ++ [p.curLine]).length - (p.h - 1))).enum.map
        (fun il => Instr.puts (p.r0 + il.1) p.c0
          (if il.2.length > p.w then il.2.take p.w else il.2)) ∧
     ((p.lines ++ [p.curLine]).drop
        ((p.lines ++ [p.curLine]).length - (p.h - 1))).length = p.h - 1) ∧
    (p20.lines.drop (p20.lines.length - (p20.h - 1)) =
      ["line6".data, "line7".data, "line8".data, "line9".data,
       "line10".data, "line11".data, "line12".data, "line13".data,
       "line14".data, "line15".data, "line16".data, "line17".data,
       "line18".data, "line19".data, "line20".data] ∧
     p20.cr = p20.h - 1 ∧ p20.cc = 0 ∧ p20.buf = text20) := by
  have hconc : p20.lines.drop (p20.lines.length - (p20.h - 1)) =
      ["line6".data, "line7".data, "line8".data, "line9".data,
       "line10".data, "line11".data, "line12".data, "line13".data,
       "line14".data, "line15".data, "line16".data, "line17".data,
       "line18".data, "line19".data, "line20".data] ∧
      p20.cr = p20.h - 1 ∧ p20.cc = 0 ∧ p20.buf = text20 := by decide
  have hcond : ¬(p.lines ++ [p.curLine]).length < p.h := by
    simp only [List.length_append, List.length_cons, List.length_nil]
    omega
  refine ⟨⟨?_, ?_, ?_⟩, hconc⟩
  · simp only [commitLine]
    rw [if_neg hcond]
  · simp only [commitLine]
    rw [if_neg hcond]
  · simp only [List.length_drop, List.length_append, List.length_cons,
      List.length_nil]
    omega

/-- C4: Cursor-row invariant — starting from the freshly constructed
panel, after any sequence of `write` calls the cursor row is strictly
below the panel height (for any height ≥ 1). -/
theorem cursor_row_invariant (title color : String) (r0 c0 w h : Nat)
    (ts : List (List Char)) (hh : 1 ≤ h) :
    (applyWrites (initPanel title color r0 c0 w h) ts).cr < h := by
  rw [applyWrites_eq_writeInto]
  exact (writeChars_rowInv ts.flatten
    { initPanel title color r0 c0 w h with
        buf := (initPanel title color r0 c0 w h).buf ++ ts.flatten }
    hh ⟨Nat.le_refl 0, hh⟩).2

/-- C5: Layout bounds and 4-panel height formula — for any reported
terminal size the effective geometry satisfies `width ≥ 80` and
`height ≥ 24`, every panel of the 4-panel layout has content height
`(effective_height - 7) / 2` floored at 3, and at terminal size 120×40
that content height is 16. -/
theorem layout_bounds_and_panel_height (tw th : Nat) (q : String) :
    80 ≤ (termSize tw th).1 ∧ 24 ≤ (termSize tw th).2 ∧
    (newSplitScreen tw th q).panels.map panel.h =
      List.replicate 4
        (if ((termSize tw th).2 - 7) / 2 < 3 then 3
         else ((termSize tw th).2 - 7) / 2) ∧
    (newSplitScreen 120 40 q).panels.map panel.h = [16, 16, 16, 16] := by
  refine ⟨?_, ?_, ?_, ?_⟩
  · simp only [termSize]
    split <;> omega
  · simp only [termSize]
    split <;> omega
  · rfl
  · rfl

/-- C6: Single-fragment scenario — writing `"hello\nworld"` to an empty
panel of width ≥ 6 (and height ≥ 2, as every real panel has) commits
exactly the line `"hello"`, leaves `"world"` in progress, and puts the
cursor at row 1, column 5. -/
theorem hello_world_fragment (title color : String) (r0 c0 w h : Nat)
    (hw : 6 ≤ w) (hh : 2 ≤ h) :
    (writeInto (initPanel title color r0 c0 w h)
        "hello\nworld".data).1.lines = ["hello".data] ∧
    (writeInto (initPanel title color r0 c0 w h)
        "hello\nworld".data).1.curLine = "world".data ∧
    (writeInto (initPanel title color r0 c0 w h)
        "hello\nworld".data).1.cr = 1 ∧
    (writeInto (initPanel title color r0 c0 w h)
        "hello\nworld".data).1.cc = 5 := by
  have hsplit : ("hello".data ++ ['\n']) ++ "world".data =
      "hello\nworld".data := by decide
  have e1 : (writeInto (initPanel title color r0 c0 w h)
      "hello\nworld".data).1 =
      (writeInto (writeInto (writeInto (initPanel title color r0 c0 w h)
        "hello".data).1 ['\n']).1 "world".data).1 := by
    rw [← hsplit, ← writeInto_append, ← writeInto_append]
  rw [e1,
    writeInto_plain "hello".data (initPanel title color r0 c0 w h)
      (by decide)
      (by show (0 : Nat) + 5 < w; omega)]
  rw [writeInto_newline_fast _ (by show (0 : Nat) + 1 < h; omega)]
  rw [writeInto_plain "world".data _ (by decide)
    (by show (0 : Nat) + 5 < w; omega)]
  exact ⟨rfl, rfl, rfl, rfl⟩

/-- C7: Fragment-boundary independence — writing fragment `a` and then
fragment `b` leaves the panel in exactly the state produced by writing
the single concatenated fragment `a ++ b`. -/
theorem write_fragment_concat (p : panel) (a b : List Char) :
    (writeInto (writeInto p a).1 b).1 = (writeInto p (a ++ b)).1 :=
  writeInto_append p a b

/-- C8: Raw-buffer append and carriage-return frame — every write
appends the full fragment to the raw buffer, and a fragment of only
`'\r'` characters leaves cursor, committed lines and in-progress line
untouched. -/
theorem raw_buffer_append_cr_frame (p : panel) (t : List Char) :
    (writeInto p t).1.buf = p.buf ++ t ∧
    ((∀ c ∈ t, c = '\r') →
      (writeInto p t).1.cr = p.cr ∧ (writeInto p t).1.cc = p.cc ∧
      (writeInto p t).1.lines = p.lines ∧
      (writeInto p t).1.curLine = p.curLine) := by
  refine ⟨writeInto_buf p t, fun hcr => ?_⟩
  rw [writeInto, writeChars_cr t _ hcr]
  exact ⟨rfl, rfl, rfl, rfl⟩

/-- C9: Malformed stream events are skipped — a line whose `"data: "`
payload is not `"[DONE]"` and fails to decode is skipped: the read loop
continues over the remaining lines with the panel and the accumulated
full text unchanged. -/
theorem malformed_event_skipped (decode : String → Option streamEvent)
    (line : String) (rest : List String) (st : panel × String)
    (hdata : "data: ".data.isPrefixOf line.data = true)
    (hdone : ¬line.drop 6 = "[DONE]")
    (hparse : decode (line.drop 6) = none) :
    readLines decode (line :: rest) st = readLines decode rest st := by
  simp only [readLines, hdata, if_true, if_neg hdone, hparse]

/-- C10: Cost formula — the total cost is
`inputTokens × costIn / 1e6 + outputTokens × costOut / 1e6`;
equivalently the per-direction products summed over one million. -/
theorem totalCost_formula (m : metrics) :
    m.totalCost = (m.inputTokens : ℚ) * m.costIn / 1000000 +
        (m.outputTokens : ℚ) * m.costOut / 1000000 ∧
      m.totalCost = ((m.inputTokens : ℚ) * m.costIn +
        (m.outputTokens : ℚ) * m.costOut) / 1000000 := by
  refine ⟨rfl, ?_⟩
  rw [metrics.totalCost]
  ring

/-- Witness for C2 at a concrete panel (origin column 4, width 5) and a
fragment that wraps and commits. -/
theorem wrap_invariant_witness :
    (1 ≤ (initPanel "t" "c" 2 4 5 3).w ∧
      wrapInv (initPanel "t" "c" 2 4 5 3)) ∧
    (wrapInv (writeInto (initPanel "t" "c" 2 4 5 3)
        "abcdefg\nhi".data).1 ∧
      ∀ i ∈ (writeInto (initPanel "t" "c" 2 4 5 3) "abcdefg\nhi".data).2,
        charInRange (initPanel "t" "c" 2 4 5 3).c0
          (initPanel "t" "c" 2 4 5 3).w i) :=
  ⟨⟨by decide, by decide⟩,
   wrap_invariant (initPanel "t" "c" 2 4 5 3) "abcdefg\nhi".data
     (by decide) (by decide)⟩

set_option maxRecDepth 100000 in
/-- Witness for C3 at the concrete panel state `q20` (the 20-line
scenario just before its final commit). -/
theorem scroll_event_spec_witness :
    (1 ≤ q20.h ∧ q20.h ≤ q20.lines.length + 1) ∧
    (((commitLine q20).1 =
      { q20 with
          lines := q20.lines ++ [q20.curLine], curLine := [],
          cr := q20.h - 1, cc := 0 } ∧
     (commitLine q20).2 =
      (List.range q20.h).map
        (fun r =>
          Instr.puts (q20.r0 + r) q20.c0 (List.replicate q20.w ' ')) ++
      ((q20.lines ++ [q20.curLine]).drop
          ((q20.lines ++ [q20.curLine]).length - (q20.h - 1))).enum.map
        (fun il => Instr.puts (q20.r0 + il.1) q20.c0
          (if il.2.length > q20.w then il.2.take q20.w else il.2)) ∧
     ((q20.lines ++ [q20.curLine]).drop
        ((q20.lines ++ [q20.curLine]).length - (q20.h - 1))).length =
       q20.h - 1) ∧
    (p20.lines.drop (p20.lines.length - (p20.h - 1)) =
      ["line6".data, "line7".data, "line8".data, "line9".data,
       "line10".data, "line11".data, "line12".data, "line13".data,
       "line14".data, "line15".data, "line16".data, "line17".data,
       "line18".data, "line19".data, "line20".data] ∧
     p20.cr = p20.h - 1 ∧ p20.cc = 0 ∧ p20.buf = text20)) :=
  ⟨⟨by decide, by decide⟩,
   scroll_event_spec q20 (by decide) (by decide)⟩

/-- Witness for C4 at a height-3 panel fed five committed lines (so the
scroll path has run). -/
theorem cursor_row_invariant_witness :
    1 ≤ 3 ∧
    (applyWrites (initPanel "t" "c" 2 2 5 3)
      ["ab\ncd\nef\ngh\nij".data]).cr < 3 :=
  ⟨by decide,
   cursor_row_invariant "t" "c" 2 2 5 3 ["ab\ncd\nef\ngh\nij".data]
     (by decide)⟩

/-- Witness for C6 at the actual first-panel geometry of the 4-panel
layout at terminal size 120×40 (width 59, height 16). -/
theorem hello_world_fragment_witness :
    (6 ≤ 59 ∧ 2 ≤ 16) ∧
    ((writeInto (initPanel "1. Direct" "c" 2 2 59 16)
        "hello\nworld".data).1.lines = ["hello".data] ∧
     (writeInto (initPanel "1. Direct" "c" 2 2 59 16)
        "hello\nworld".data).1.curLine = "world".data ∧
     (writeInto (initPanel "1. Direct" "c" 2 2 59 16)
        "hello\nworld".data).1.cr = 1 ∧
     (writeInto (initPanel "1. Direct" "c" 2 2 59 16)
        "hello\nworld".data).1.cc = 5) :=
  ⟨⟨by decide, by decide⟩,
   hello_world_fragment "1. Direct" "c" 2 2 59 16 (by decide) (by decide)⟩

/-- Witness for C8 at a concrete panel and the all-carriage-return
fragment `"\r\r"`. -/
theorem raw_buffer_append_cr_frame_witness :
    ((writeInto (initPanel "t" "c" 1 1 5 4) "\r\r".data).1.buf =
      (initPanel "t" "c" 1 1 5 4).buf ++ "\r\r".data) ∧
    (∀ c ∈ ("\r\r".data : List Char), c = '\r') ∧
    ((writeInto (initPanel "t" "c" 1 1 5 4) "\r\r".data).1.cr =
        (initPanel "t" "c" 1 1 5 4).cr ∧
      (writeInto (initPanel "t" "c" 1 1 5 4) "\r\r".data).1.cc =
        (initPanel "t" "c" 1 1 5 4).cc ∧
      (writeInto (initPanel "t" "c" 1 1 5 4) "\r\r".data).1.lines =
        (initPanel "t" "c" 1 1 5 4).lines ∧
      (writeInto (initPanel "t" "c" 1 1 5 4) "\r\r".data).1.curLine =
        (initPanel "t" "c" 1 1 5 4).curLine) :=
  ⟨(raw_buffer_append_cr_frame (initPanel "t" "c" 1 1 5 4) "\r\r".data).1,
   by decide,
   (raw_buffer_append_cr_frame (initPanel "t" "c" 1 1 5 4)
     "\r\r".data).2 (by decide)⟩

/-- Witness for C9: under a decoder that rejects everything, the
malformed line `"data: oops"` is skipped and reading continues. -/
theorem malformed_event_skipped_witness :
    ("data: ".data.isPrefixOf "data: oops".data = true ∧
      ¬("data: oops".drop 6 = "[DONE]") ∧
      decodeNone ("data: oops".drop 6) = none) ∧
    readLines decodeNone ["data: oops", "data: [DONE]"]
        (initPanel "t" "c" 1 1 5 4, "") =
      readLines decodeNone ["data: [DONE]"]
        (initPanel "t" "c" 1 1 5 4, "") :=
  ⟨⟨by decide, by decide, rfl⟩,
   malformed_event_skipped decodeNone "data: oops" ["data: [DONE]"]
     (initPanel "t" "c" 1 1 5 4, "") (by decide) (by decide) rfl⟩

end Challenge
